import Mathlib

/-!
Verification of the live audio pipeline of the Ask-About-Video client
(src/services/geminiService.ts): the base64 transport codec (decode /
the btoa stage of base64EncodeAudio), the float-to-PCM16 encoder
(base64EncodeAudio), the PCM16-to-float decoder (decodeAudioData), the
playback scheduler (LiveSession.onMessage), the teardown path
(LiveSession.disconnect) and the capture-to-transport handler
(the onaudioprocess closure installed by LiveSession.onOpen).

Numbers: audio samples and clock times are modelled as rationals (the
source's float arithmetic on these values is exact at the granularity the
claims speak about); byte values and character codes are naturals;
16-bit PCM sample values are integers. JS semantics that the source
relies on are modelled explicitly: ToInt16 truncation-and-wrap on
Int16Array stores, the RangeError thrown by the Int16Array constructor
on an odd-length buffer, the NotSupportedError thrown by
AudioContext.createBuffer on a zero channel count or zero (truncated)
frame count, and the InvalidStateError rejection of AudioContext.close
on an already-closed context.
-/

namespace AskAboutVideo

/-- The base64 alphabet as character codes: A-Z, a-z, 0-9, plus, slash. -/
def b64Table : List Nat :=
  [65, 66, 67, 68, 69, 70, 71, 72, 73, 74, 75, 76, 77, 78, 79, 80, 81, 82,
   83, 84, 85, 86, 87, 88, 89, 90,
   97, 98, 99, 100, 101, 102, 103, 104, 105, 106, 107, 108, 109, 110, 111,
   112, 113, 114, 115, 116, 117, 118, 119, 120, 121, 122,
   48, 49, 50, 51, 52, 53, 54, 55, 56, 57, 43, 47]

/-- Character code of the base64 digit for a sextet value. -/
def encodeChar (n : Nat) : Nat := b64Table.getD n 0

/-- Sextet value of a base64 digit character code (table lookup). -/
def decodeChar (c : Nat) : Nat := b64Table.indexOf c

/-- JS btoa on a byte list: each group of 3 bytes becomes 4 base64
characters; a trailing group of 1 or 2 bytes is padded with 61
(the code of the equals sign). -/
def btoa : List Nat → List Nat
  | [] => []
  | [b1] => [encodeChar (b1 / 4), encodeChar (b1 % 4 * 16), 61, 61]
  | [b1, b2] => [encodeChar (b1 / 4), encodeChar (b1 % 4 * 16 + b2 / 16),
                 encodeChar (b2 % 16 * 4), 61]
  | b1 :: b2 :: b3 :: rest =>
      encodeChar (b1 / 4) :: encodeChar (b1 % 4 * 16 + b2 / 16) ::
      encodeChar (b2 % 16 * 4 + b3 / 64) :: encodeChar (b3 % 64) :: btoa rest

/-- Reassemble bytes from a list of sextets: every full group of 4 sextets
yields 3 bytes; a trailing group of 2 or 3 sextets (from padded input)
yields 1 or 2 bytes. -/
def sextetsToBytes : List Nat → List Nat
  | s1 :: s2 :: s3 :: s4 :: rest =>
      (s1 * 4 + s2 / 16) :: (s2 % 16 * 16 + s3 / 4) :: (s3 % 4 * 64 + s4) ::
      sextetsToBytes rest
  | [s1, s2] => [s1 * 4 + s2 / 16]
  | [s1, s2, s3] => [s1 * 4 + s2 / 16, s2 % 16 * 16 + s3 / 4]
  | _ => []

/-- JS atob on a character-code list (valid base64 text): drop padding,
map digits to sextets, reassemble bytes. -/
def atob (text : List Nat) : List Nat :=
  sextetsToBytes ((text.filter (fun c => c ≠ 61)).map decodeChar)

/-- Source decode (geminiService.ts lines 134-142): atob, then charCodeAt
of each character into a Uint8Array. atob output characters are below
256, so the byte store is exact. -/
def decode (base64 : List Nat) : List Nat := atob base64

/-- Truncation toward zero on rationals (JS ToIntegerOrInfinity on a
finite value). -/
def ratTrunc (q : ℚ) : Int := if q < 0 then ⌈q⌉ else ⌊q⌋

/-- JS ToInt16: wrap an integer into the signed 16-bit range. -/
def toInt16 (n : Int) : Int := (n + 32768) % 65536 - 32768

/-- PCM stage of base64EncodeAudio (lines 171-175): clamp the sample to
[-1,1], scale a negative value by 0x8000 and a non-negative one by
0x7FFF, then store through ToInt16 (truncate and wrap). -/
def sampleToInt16 (x : ℚ) : Int :=
  let s := max (-1) (min 1 x)
  toInt16 (ratTrunc (if s < 0 then s * 32768 else s * 32767))

/-- Little-endian byte pair of an int16 value, as laid out by the
Uint8Array view over the Int16Array buffer (lines 177-182). -/
def int16ToBytesLE (v : Int) : List Nat :=
  [(v % 65536).toNat % 256, (v % 65536).toNat / 256]

/-- The byte serialization produced by base64EncodeAudio before the btoa
stage: per-sample int16 conversion, two bytes per sample, little-endian. -/
def floatToPCM16 (xs : List ℚ) : List Nat :=
  (xs.map sampleToInt16).flatMap int16ToBytesLE

/-- base64EncodeAudio (lines 170-184): PCM16-encode the samples, then
btoa the byte string. -/
def base64EncodeAudio (xs : List ℚ) : List Nat := btoa (floatToPCM16 xs)

/-- Signed 16-bit value of a little-endian byte pair, as read through an
Int16Array view. -/
def int16OfBytes (lo hi : Nat) : Int :=
  let u := lo % 256 + 256 * (hi % 256)
  if u < 32768 then (u : Int) else (u : Int) - 65536

/-- The Int16Array view over a byte buffer: consecutive little-endian
pairs. Only reached on even-length buffers (the constructor throws
otherwise). -/
def bytesToInt16s : List Nat → List Int
  | lo :: hi :: rest => int16OfBytes lo hi :: bytesToInt16s rest
  | _ => []

/-- Failure modes of decodeAudioData: the RangeError of the Int16Array
constructor on an odd-length buffer, and the NotSupportedError of
createBuffer on a zero channel count or zero frame count. -/
inductive DecodeErr where
  | rangeErr
  | notSupported
  deriving DecidableEq

/-- The AudioBuffer produced by decodeAudioData: per-channel sample data
plus the shape handed to createBuffer. -/
structure AudioBufferModel where
  numChannels : Nat
  frameCount : Nat
  sampleRate : Nat
  channelData : List (List ℚ)
  deriving DecidableEq

/-- AudioBuffer.duration: frame count over sample rate, in seconds. -/
def AudioBufferModel.duration (b : AudioBufferModel) : ℚ :=
  (b.frameCount : ℚ) / (b.sampleRate : ℚ)

/-- decodeAudioData (lines 147-165). The JS frameCount is the float
quotient dataInt16.length / numChannels; createBuffer truncates it
(WebIDL unsigned long conversion), so the allocated buffer holds
dataInt16.length / numChannels (Nat division) frames, and the write of
the loop's final fractional index is an out-of-range typed-array store,
i.e. a no-op. createBuffer throws NotSupportedError when the channel
count or the truncated frame count is zero. -/
def decodeAudioData (data : List Nat) (sampleRate numChannels : Nat) :
    Except DecodeErr AudioBufferModel :=
  if data.length % 2 ≠ 0 then .error .rangeErr
  else
    let dataInt16 := bytesToInt16s data
    let frameCount := dataInt16.length / numChannels
    if numChannels = 0 ∨ frameCount = 0 then .error .notSupported
    else .ok {
      numChannels := numChannels
      frameCount := frameCount
      sampleRate := sampleRate
      channelData := (List.range numChannels).map fun ch =>
        (List.range frameCount).map fun i =>
          ((dataInt16.getD (i * numChannels + ch) 0 : Int) : ℚ) / 32768 }

/-- One unit of model audio scheduled on the output clock. -/
structure ScheduledUnit where
  start : ℚ
  duration : ℚ
  deriving DecidableEq

/-- The scheduler state owned by LiveSession: the nextStartTime cursor. -/
structure SchedState where
  nextStartTime : ℚ
  deriving DecidableEq

/-- LiveSession.onMessage (lines 307-332). audioData is the optional
inline audio payload of the server message; currentTime is
outputContext.currentTime at receipt. A decode failure is caught:
the state is unchanged and nothing is scheduled. On success the unit
starts at max(currentTime, nextStartTime) and the cursor advances by
its duration. -/
def onMessage (currentTime : ℚ) (st : SchedState) (audioData : Option (List Nat)) :
    SchedState × Option ScheduledUnit :=
  match audioData with
  | none => (st, none)
  | some b64 =>
    match decodeAudioData (decode b64) 24000 1 with
    | .error _ => (st, none)
    | .ok buf =>
      let start := max currentTime st.nextStartTime
      (⟨start + buf.duration⟩, some ⟨start, buf.duration⟩)

/-- Run a session's message handler over a list of events (receipt clock
time, optional audio payload), threading the scheduler state and
collecting the scheduled units in order. -/
def runFrom (st : SchedState) : List (ℚ × Option (List Nat)) → SchedState × List ScheduledUnit
  | [] => (st, [])
  | e :: rest =>
    let step := onMessage e.1 st e.2
    let tail := runFrom step.1 rest
    (tail.1, step.2.toList ++ tail.2)

/-- A full session run from the initial cursor value 0 (line 235). -/
def runSession (events : List (ℚ × Option (List Nat))) : SchedState × List ScheduledUnit :=
  runFrom ⟨0⟩ events

/-- The resources LiveSession.disconnect touches: the two nullable node
references and the closed flags of the two AudioContexts. -/
structure SessionResources where
  processor : Bool
  inputSource : Bool
  inputContextClosed : Bool
  outputContextClosed : Bool
  deriving DecidableEq

/-- Failure mode of AudioContext.close. -/
inductive DomErr where
  | invalidState
  deriving DecidableEq

/-- AudioContext.close: resolves and marks the context closed, but
rejects with InvalidStateError when the context is already closed
(Web Audio API, AudioContext.close step 1). -/
def audioContextClose (closed : Bool) : Except DomErr Unit :=
  if closed then .error .invalidState else .ok ()

/-- LiveSession.disconnect (lines 334-350): null-checked disconnect of the
processor and input source, then awaited close of the input and output
contexts; a rejection of either close propagates out of the async
method. The underlying live connection is never closed (source comment,
lines 346-349). -/
def disconnect (st : SessionResources) : Except DomErr SessionResources :=
  let st1 := if st.processor then { st with processor := false } else st
  let st2 := if st1.inputSource then { st1 with inputSource := false } else st1
  match audioContextClose st2.inputContextClosed with
  | .error e => .error e
  | .ok _ =>
    let st3 := { st2 with inputContextClosed := true }
    match audioContextClose st3.outputContextClosed with
    | .error e => .error e
    | .ok _ => .ok { st3 with outputContextClosed := true }

/-- One outbound sendRealtimeInput payload. -/
structure RealtimeMedia where
  mimeType : String
  data : List Nat
  deriving DecidableEq

/-- The onaudioprocess handler installed by LiveSession.onOpen
(lines 286-298): encode the frame's channel-0 samples with
base64EncodeAudio and send them tagged with the 16 kHz capture rate. -/
def onAudioProcess (inputData : List ℚ) : RealtimeMedia :=
  { mimeType := "audio/pcm;rate=16000", data := base64EncodeAudio inputData }

/-- The ordered outbound sends produced by a list of captured frames:
one send per frame, in frame order (promise callbacks on the resolved
session run in first-in-first-out order). -/
def captureSends (frames : List (List ℚ)) : List RealtimeMedia :=
  frames.map onAudioProcess

end AskAboutVideo

namespace AskAboutVideo

/-- Decoding a base64 digit recovers its sextet. -/
theorem decodeChar_encodeChar : ∀ n, n < 64 → decodeChar (encodeChar n) = n := by decide

/-- A base64 digit is never the padding character. -/
theorem encodeChar_ne_pad : ∀ n, n < 64 → encodeChar n ≠ 61 := by decide

/-- atob inverts btoa on byte lists. -/
theorem atob_btoa : ∀ (bs : List Nat), (∀ b ∈ bs, b < 256) → atob (btoa bs) = bs
  | [], _ => rfl
  | [b1], h => by
    have h1 : b1 < 256 := h b1 (by simp)
    have e1 : encodeChar (b1 / 4) ≠ 61 := encodeChar_ne_pad _ (by omega)
    have e2 : encodeChar (b1 % 4 * 16) ≠ 61 := encodeChar_ne_pad _ (by omega)
    have d1 := decodeChar_encodeChar (b1 / 4) (by omega)
    have d2 := decodeChar_encodeChar (b1 % 4 * 16) (by omega)
    simp [atob, btoa, e1, e2, d1, d2, sextetsToBytes]
    omega
  | [b1, b2], h => by
    have h1 : b1 < 256 := h b1 (by simp)
    have h2 : b2 < 256 := h b2 (by simp)
    have e1 : encodeChar (b1 / 4) ≠ 61 := encodeChar_ne_pad _ (by omega)
    have e2 : encodeChar (b1 % 4 * 16 + b2 / 16) ≠ 61 := encodeChar_ne_pad _ (by omega)
    have e3 : encodeChar (b2 % 16 * 4) ≠ 61 := encodeChar_ne_pad _ (by omega)
    have d1 := decodeChar_encodeChar (b1 / 4) (by omega)
    have d2 := decodeChar_encodeChar (b1 % 4 * 16 + b2 / 16) (by omega)
    have d3 := decodeChar_encodeChar (b2 % 16 * 4) (by omega)
    simp [atob, btoa, e1, e2, e3, d1, d2, d3, sextetsToBytes]
    omega
  | b1 :: b2 :: b3 :: rest, h => by
    have h1 : b1 < 256 := h b1 (by simp)
    have h2 : b2 < 256 := h b2 (by simp)
    have h3 : b3 < 256 := h b3 (by simp)
    have ih := atob_btoa rest (fun b hb => h b (by simp [hb]))
    have e1 : encodeChar (b1 / 4) ≠ 61 := encodeChar_ne_pad _ (by omega)
    have e2 : encodeChar (b1 % 4 * 16 + b2 / 16) ≠ 61 := encodeChar_ne_pad _ (by omega)
    have e3 : encodeChar (b2 % 16 * 4 + b3 / 64) ≠ 61 := encodeChar_ne_pad _ (by omega)
    have e4 : encodeChar (b3 % 64) ≠ 61 := encodeChar_ne_pad _ (by omega)
    have d1 := decodeChar_encodeChar (b1 / 4) (by omega)
    have d2 := decodeChar_encodeChar (b1 % 4 * 16 + b2 / 16) (by omega)
    have d3 := decodeChar_encodeChar (b2 % 16 * 4 + b3 / 64) (by omega)
    have d4 := decodeChar_encodeChar (b3 % 64) (by omega)
    simp only [atob] at ih
    have a1 : b1 / 4 * 4 + (b1 % 4 * 16 + b2 / 16) / 16 = b1 := by omega
    have a2 : (b1 % 4 * 16 + b2 / 16) % 16 * 16 + (b2 % 16 * 4 + b3 / 64) / 4 = b2 := by omega
    have a3 : (b2 % 16 * 4 + b3 / 64) % 4 * 64 + b3 % 64 = b3 := by omega
    show atob (encodeChar (b1 / 4) :: encodeChar (b1 % 4 * 16 + b2 / 16) ::
         encodeChar (b2 % 16 * 4 + b3 / 64) :: encodeChar (b3 % 64) :: btoa rest) = _
    unfold atob
    rw [List.filter_cons_of_pos (by simp [e1]), List.filter_cons_of_pos (by simp [e2]),
        List.filter_cons_of_pos (by simp [e3]), List.filter_cons_of_pos (by simp [e4]),
        List.map_cons, List.map_cons, List.map_cons, List.map_cons, d1, d2, d3, d4]
    show (b1 / 4 * 4 + (b1 % 4 * 16 + b2 / 16) / 16) ::
         ((b1 % 4 * 16 + b2 / 16) % 16 * 16 + (b2 % 16 * 4 + b3 / 64) / 4) ::
         ((b2 % 16 * 4 + b3 / 64) % 4 * 64 + b3 % 64) ::
         sextetsToBytes (List.map decodeChar
           (List.filter (fun c => decide (c ≠ 61)) (btoa rest))) = _
    rw [a1, a2, a3, ih]


/-- ToInt16 is the identity on the signed 16-bit range. -/
theorem toInt16_of_range {n : Int} (h1 : -32768 ≤ n) (h2 : n ≤ 32767) : toInt16 n = n := by
  unfold toInt16
  omega

/-- The clamped sample lies in [-1, 1]. -/
theorem clamp_mem (x : ℚ) : -1 ≤ max (-1) (min 1 x) ∧ max (-1) (min 1 x) ≤ 1 :=
  ⟨le_max_left _ _, max_le (by norm_num) (min_le_left _ _)⟩

/-- The scaled, truncated sample of a clamped value is within the signed
16-bit range, so the ToInt16 store never wraps. -/
theorem ratTrunc_scaled_range (s : ℚ) (h1 : -1 ≤ s) (h2 : s ≤ 1) :
    -32768 ≤ ratTrunc (if s < 0 then s * 32768 else s * 32767) ∧
    ratTrunc (if s < 0 then s * 32768 else s * 32767) ≤ 32767 := by
  unfold ratTrunc
  by_cases hs : s < 0
  · rw [if_pos hs]
    have hq : s * 32768 < 0 := mul_neg_of_neg_of_pos hs (by norm_num)
    rw [if_pos hq]
    constructor
    · have hge : (-32768 : ℚ) ≤ s * 32768 := by nlinarith
      calc (-32768 : Int) = ⌈((-32768 : Int) : ℚ)⌉ := (Int.ceil_intCast _).symm
        _ ≤ ⌈s * 32768⌉ := Int.ceil_le_ceil (by push_cast; exact hge)
    · have hcl : ⌈s * 32768⌉ ≤ (0 : Int) := Int.ceil_le.mpr (by push_cast; exact hq.le)
      omega
  · rw [if_neg hs]
    push_neg at hs
    have hq : 0 ≤ s * 32767 := mul_nonneg hs (by norm_num)
    rw [if_neg (not_lt.mpr hq)]
    constructor
    · have hfl : (0 : Int) ≤ ⌊s * 32767⌋ := Int.floor_nonneg.mpr hq
      omega
    · calc ⌊s * 32767⌋ ≤ ⌊((32767 : Int) : ℚ)⌋ := Int.floor_le_floor (by push_cast; nlinarith)
        _ = 32767 := Int.floor_intCast _

/-- The ToInt16 store in base64EncodeAudio is exact: the stored value is
the truncation of the scaled clamped sample. -/
theorem sampleToInt16_eq_ratTrunc (x : ℚ) :
    sampleToInt16 x = ratTrunc (if max (-1) (min 1 x) < 0
      then max (-1) (min 1 x) * 32768 else max (-1) (min 1 x) * 32767) := by
  have h := clamp_mem x
  have hr := ratTrunc_scaled_range _ h.1 h.2
  simp only [sampleToInt16]
  exact toInt16_of_range hr.1 hr.2

/-- Every encoded sample value is in the signed 16-bit range. -/
theorem sampleToInt16_range (x : ℚ) : -32768 ≤ sampleToInt16 x ∧ sampleToInt16 x ≤ 32767 := by
  rw [sampleToInt16_eq_ratTrunc]
  exact ratTrunc_scaled_range _ (clamp_mem x).1 (clamp_mem x).2

/-- Reading back a little-endian byte pair recovers an in-range int16. -/
theorem int16OfBytes_int16ToBytesLE {v : Int} (h1 : -32768 ≤ v) (h2 : v ≤ 32767) :
    int16OfBytes ((v % 65536).toNat % 256) ((v % 65536).toNat / 256) = v := by
  simp only [int16OfBytes]
  split
  · omega
  · omega

/-- One unfolding step of the Int16Array view over a serialized pair. -/
theorem bytesToInt16s_pair (v : Int) (rest : List Nat) :
    bytesToInt16s (int16ToBytesLE v ++ rest)
      = int16OfBytes ((v % 65536).toNat % 256) ((v % 65536).toNat / 256) :: bytesToInt16s rest := rfl

/-- The Int16Array view over the PCM16 serialization recovers exactly the
per-sample int16 values. -/
theorem bytesToInt16s_floatToPCM16 (xs : List ℚ) :
    bytesToInt16s (floatToPCM16 xs) = xs.map sampleToInt16 := by
  induction xs with
  | nil => rfl
  | cons x xs ih =>
    have hr := sampleToInt16_range x
    simp only [floatToPCM16, List.map_cons, List.flatMap_cons] at ih ⊢
    rw [bytesToInt16s_pair, int16OfBytes_int16ToBytesLE hr.1 hr.2, ih]

/-- The PCM16 serialization has two bytes per sample. -/
theorem floatToPCM16_length (xs : List ℚ) : (floatToPCM16 xs).length = 2 * xs.length := by
  induction xs with
  | nil => rfl
  | cons x xs ih =>
    simp only [floatToPCM16, List.map_cons, List.flatMap_cons, List.length_append,
      List.length_cons, int16ToBytesLE] at ih ⊢
    simp only [List.length_cons, List.length_nil]
    omega

/-- Every byte of the PCM16 serialization is a genuine byte value. -/
theorem floatToPCM16_lt256 (xs : List ℚ) : ∀ b ∈ floatToPCM16 xs, b < 256 := by
  induction xs with
  | nil =>
    intro b hb
    simp [floatToPCM16] at hb
  | cons x xs ih =>
    intro b hb
    simp only [floatToPCM16, List.map_cons, List.flatMap_cons, List.mem_append] at hb
    rcases hb with hb | hb
    · have hlt : (sampleToInt16 x % 65536).toNat < 65536 := by omega
      simp only [int16ToBytesLE, List.mem_cons, List.not_mem_nil, or_false] at hb
      rcases hb with rfl | rfl
      · omega
      · omega
    · exact ih b hb


/-- The Int16Array view halves the byte length (flooring). -/
theorem bytesToInt16s_length : ∀ bs : List Nat, (bytesToInt16s bs).length = bs.length / 2
  | [] => rfl
  | [_] => by simp [bytesToInt16s]
  | _ :: _ :: rest => by
    simp only [bytesToInt16s, List.length_cons, bytesToInt16s_length rest]
    omega

/-- Indexing a map over List.range by getD. -/
theorem map_range_getD {α β : Type} (l : List α) (d : α) (f : α → β) :
    (List.range l.length).map (fun i => f (l.getD i d)) = l.map f := by
  induction l with
  | nil => rfl
  | cons x xs ih =>
    rw [List.length_cons, List.range_succ_eq_map, List.map_cons, List.map_map, List.map_cons]
    have hcomp : ((fun i => f ((x :: xs).getD i d)) ∘ Nat.succ) = (fun i => f (xs.getD i d)) :=
      funext fun i => rfl
    rw [hcomp, ih]
    rfl

/-- decodeAudioData succeeds exactly when the byte length is even, the
channel count is nonzero and the truncated frame count is nonzero. -/
theorem decodeAudioData_ok_iff (data : List Nat) (sr nc : Nat) :
    (∃ buf, decodeAudioData data sr nc = .ok buf) ↔
      data.length % 2 = 0 ∧ ¬(nc = 0 ∨ data.length / 2 / nc = 0) := by
  simp only [decodeAudioData, bytesToInt16s_length]
  by_cases h2 : data.length % 2 ≠ 0
  · rw [if_pos h2]
    simp only [ne_eq, not_not] at h2 ⊢
    constructor
    · rintro ⟨buf, hbuf⟩
      exact absurd hbuf (by simp)
    · rintro ⟨hh, -⟩
      exact absurd hh h2
  · rw [if_neg h2]
    push_neg at h2
    by_cases hc : nc = 0 ∨ data.length / 2 / nc = 0
    · rw [if_pos hc]
      constructor
      · rintro ⟨buf, hbuf⟩
        exact absurd hbuf (by simp)
      · rintro ⟨-, hh⟩
        exact absurd hc hh
    · rw [if_neg hc]
      exact ⟨fun _ => ⟨h2, hc⟩, fun _ => ⟨_, rfl⟩⟩

/-- Shape of a successful decodeAudioData result. -/
theorem decodeAudioData_ok_shape {data : List Nat} {sr nc : Nat} {buf : AudioBufferModel}
    (h : decodeAudioData data sr nc = .ok buf) :
    buf.numChannels = nc ∧ buf.sampleRate = sr ∧
    buf.frameCount = data.length / 2 / nc ∧ buf.frameCount ≠ 0 := by
  simp only [decodeAudioData, bytesToInt16s_length] at h
  by_cases h2 : data.length % 2 ≠ 0
  · rw [if_pos h2] at h
    exact absurd h (by simp)
  · rw [if_neg h2] at h
    by_cases hc : nc = 0 ∨ data.length / 2 / nc = 0
    · rw [if_pos hc] at h
      exact absurd h (by simp)
    · rw [if_neg hc] at h
      injection h with h
      subst h
      push_neg at hc
      exact ⟨rfl, rfl, rfl, hc.2⟩

/-- Mono (single-channel) decodeAudioData on an even nonempty buffer:
one channel holding every int16 sample divided by 32768. -/
theorem decodeAudioData_mono (data : List Nat) (sr : Nat)
    (h2 : data.length % 2 = 0) (hnz : data.length / 2 ≠ 0) :
    decodeAudioData data sr 1 = .ok {
      numChannels := 1
      frameCount := data.length / 2
      sampleRate := sr
      channelData := [(bytesToInt16s data).map (fun v => ((v : Int) : ℚ) / 32768)] } := by
  simp only [decodeAudioData, bytesToInt16s_length]
  rw [if_neg (by omega)]
  rw [if_neg (by simp [Nat.div_one]; omega)]
  have hr : (List.range 1) = [0] := rfl
  simp only [Nat.div_one, hr, List.map_cons, List.map_nil]
  have hidx : ∀ i : Nat, i * 1 + 0 = i := by intro i; omega
  have h1 : (List.range (data.length / 2)).map
        (fun i => (((bytesToInt16s data).getD (i * 1 + 0) 0 : Int) : ℚ) / 32768)
      = (List.range (bytesToInt16s data).length).map
        (fun i => (((bytesToInt16s data).getD i 0 : Int) : ℚ) / 32768) := by
    rw [bytesToInt16s_length]
    exact List.map_congr_left (fun i _ => by rw [hidx i])
  have hch : (List.range (data.length / 2)).map
        (fun i => (((bytesToInt16s data).getD (i * 1 + 0) 0 : Int) : ℚ) / 32768)
      = (bytesToInt16s data).map (fun v => ((v : Int) : ℚ) / 32768) := by
    rw [h1]
    exact map_range_getD (bytesToInt16s data) 0 (fun v => ((v : Int) : ℚ) / 32768)
  rw [hch]

/-- Per-sample round-trip error of the asymmetric PCM16 codec: encode
scales non-negative samples by 32767 but decode divides by 32768, so the
error is bounded by 2/32768 = 1/16384 (and this is tight up to the
sample grid), not by 1/32768. -/
theorem roundtrip_sample_bound (x : ℚ) (h1 : -1 ≤ x) (h2 : x ≤ 1) :
    |((sampleToInt16 x : ℚ)) / 32768 - x| ≤ 1 / 16384 := by
  have hclamp : max (-1) (min 1 x) = x := by
    rw [min_eq_right h2, max_eq_right h1]
  rw [sampleToInt16_eq_ratTrunc, hclamp]
  unfold ratTrunc
  by_cases hx : x < 0
  · rw [if_pos hx, if_pos (mul_neg_of_neg_of_pos hx (by norm_num))]
    have hle : (x * 32768 : ℚ) ≤ ⌈x * 32768⌉ := Int.le_ceil _
    have hlt : (⌈x * 32768⌉ : ℚ) < x * 32768 + 1 := Int.ceil_lt_add_one _
    rw [abs_le]
    constructor
    · nlinarith
    · nlinarith
  · push_neg at hx
    rw [if_neg (not_lt.mpr hx), if_neg (not_lt.mpr (mul_nonneg hx (by norm_num)))]
    have hle : (⌊x * 32767⌋ : ℚ) ≤ x * 32767 := Int.floor_le _
    have hlt : (x * 32767 : ℚ) - 1 < ⌊x * 32767⌋ := Int.sub_one_lt_floor _
    rw [abs_le]
    constructor
    · nlinarith
    · nlinarith


/-- A decoded buffer's duration is strictly positive. -/
theorem duration_pos {buf : AudioBufferModel}
    (hf : buf.frameCount ≠ 0) (hs : buf.sampleRate = 24000) : 0 < buf.duration := by
  unfold AudioBufferModel.duration
  rw [hs]
  apply div_pos
  · exact_mod_cast Nat.pos_of_ne_zero hf
  · norm_num

/-- Case analysis of one onMessage step: either the state is unchanged and
nothing is scheduled, or a decodable payload was present and a unit is
scheduled at max(currentTime, nextStartTime). -/
theorem onMessage_cases (now : ℚ) (st : SchedState) (msg : Option (List Nat)) :
    onMessage now st msg = (st, none) ∨
    ∃ (buf : AudioBufferModel) (b64 : List Nat), msg = some b64 ∧
      decodeAudioData (decode b64) 24000 1 = .ok buf ∧ 0 < buf.duration ∧
      onMessage now st msg =
        (⟨max now st.nextStartTime + buf.duration⟩,
         some ⟨max now st.nextStartTime, buf.duration⟩) := by
  cases msg with
  | none => exact Or.inl rfl
  | some b64 =>
    cases hdec : decodeAudioData (decode b64) 24000 1 with
    | error e =>
      left
      simp [onMessage, hdec]
    | ok buf =>
      right
      obtain ⟨-, hsr, -, hf⟩ := decodeAudioData_ok_shape hdec
      refine ⟨buf, b64, rfl, hdec, duration_pos hf hsr, ?_⟩
      simp [onMessage, hdec]

/-- The nextStartTime cursor never decreases across one onMessage call. -/
theorem onMessage_cursor_mono (now : ℚ) (st : SchedState) (msg : Option (List Nat)) :
    st.nextStartTime ≤ (onMessage now st msg).1.nextStartTime := by
  rcases onMessage_cases now st msg with hstep | ⟨buf, b64, -, -, hd, hstep⟩
  · rw [hstep]
  · rw [hstep]
    have h1 : st.nextStartTime ≤ max now st.nextStartTime := le_max_right _ _
    have h2 : (0:ℚ) < buf.duration := hd
    simp only []
    linarith

/-- Unfolding of runFrom over a step that schedules nothing. -/
theorem runFrom_cons_none {now : ℚ} {st : SchedState} {msg : Option (List Nat)}
    (hstep : onMessage now st msg = (st, none)) (rest : List (ℚ × Option (List Nat))) :
    runFrom st ((now, msg) :: rest) = runFrom st rest := by
  simp [runFrom, hstep]

/-- Unfolding of runFrom over a step that schedules a unit. -/
theorem runFrom_cons_some {now : ℚ} {st st1 : SchedState} {msg : Option (List Nat)}
    {u : ScheduledUnit} (hstep : onMessage now st msg = (st1, some u))
    (rest : List (ℚ × Option (List Nat))) :
    runFrom st ((now, msg) :: rest) = ((runFrom st1 rest).1, u :: (runFrom st1 rest).2) := by
  simp [runFrom, hstep]

/-- Run invariant of the playback scheduler: the cursor never decreases;
every scheduled unit starts no earlier than the initial cursor, has
positive duration, and ends (start + duration) no later than the final
cursor; and consecutive scheduled units never overlap. -/
theorem runFrom_inv (events : List (ℚ × Option (List Nat))) (st : SchedState) :
    st.nextStartTime ≤ (runFrom st events).1.nextStartTime ∧
    (∀ u ∈ (runFrom st events).2,
      st.nextStartTime ≤ u.start ∧ 0 < u.duration ∧
      u.start + u.duration ≤ (runFrom st events).1.nextStartTime) ∧
    List.Chain' (fun a b => a.start + a.duration ≤ b.start) (runFrom st events).2 := by
  induction events generalizing st with
  | nil =>
    refine ⟨le_refl _, ?_, ?_⟩
    · intro u hu
      simp [runFrom] at hu
    · simp [runFrom]
  | cons e rest ih =>
    rcases onMessage_cases e.1 st e.2 with hstep | ⟨buf, b64, hmsg, hdec, hd, hstep⟩
    · rw [show e = (e.1, e.2) from rfl, runFrom_cons_none hstep]
      exact ih st
    · rw [show e = (e.1, e.2) from rfl, runFrom_cons_some hstep]
      obtain ⟨ih1, ih2, ih3⟩ := ih ⟨max e.1 st.nextStartTime + buf.duration⟩
      have hcur : st.nextStartTime ≤ max e.1 st.nextStartTime + buf.duration := by
        have := le_max_right e.1 st.nextStartTime
        linarith
      refine ⟨le_trans hcur ih1, ?_, ?_⟩
      · intro u hu
        rcases List.mem_cons.mp hu with rfl | hu
        · exact ⟨le_max_right _ _, hd, ih1⟩
        · obtain ⟨hu1, hu2, hu3⟩ := ih2 u hu
          exact ⟨le_trans hcur hu1, hu2, hu3⟩
      · rw [List.chain'_cons']
        refine ⟨?_, ih3⟩
        intro b hb
        exact (ih2 b (List.mem_of_mem_head? hb)).1

/-- From the consecutive non-overlap chain and positive durations, any
earlier unit ends no later than any later unit starts. -/
theorem chain_pairwise {us : List ScheduledUnit}
    (hch : List.Chain' (fun a b => a.start + a.duration ≤ b.start) us)
    (hdur : ∀ u ∈ us, 0 < u.duration) :
    ∀ i j, i < j → ∀ hj : j < us.length,
      (us.getD i ⟨0, 0⟩).start + (us.getD i ⟨0, 0⟩).duration ≤ (us.getD j ⟨0, 0⟩).start := by
  intro i j
  induction j with
  | zero => omega
  | succ j ihj =>
    intro hij hj
    have hj' : j < us.length := by omega
    have hstep : (us.get ⟨j, hj'⟩).start + (us.get ⟨j, hj'⟩).duration
        ≤ (us.get ⟨j + 1, hj⟩).start := List.chain'_iff_get.mp hch j (by omega)
    rw [List.getD_eq_get us ⟨0, 0⟩ hj]
    rcases Nat.lt_or_ge i j with hij2 | hij2
    · have h1 := ihj hij2 hj'
      rw [List.getD_eq_get us ⟨0, 0⟩ hj'] at h1
      have hdj := hdur (us.get ⟨j, hj'⟩) (List.get_mem us j hj')
      linarith
    · have hieq : i = j := by omega
      subst hieq
      rw [List.getD_eq_get us ⟨0, 0⟩ hj']
      exact hstep


/-- Clamping to [-1, 1] is idempotent. -/
theorem clamp_idem (x : ℚ) :
    max (-1) (min 1 (max (-1) (min 1 x))) = max (-1) (min 1 x) := by
  obtain ⟨h1, h2⟩ := clamp_mem x
  rw [min_eq_right h2, max_eq_right h1]

/-- Encoding a pre-clamped sample stores the same int16 value. -/
theorem sampleToInt16_clamp (x : ℚ) :
    sampleToInt16 (max (-1) (min 1 x)) = sampleToInt16 x := by
  simp only [sampleToInt16, clamp_idem]

/-- PCM16 encoding only sees samples through the clamp. -/
theorem floatToPCM16_clamp (xs : List ℚ) :
    floatToPCM16 (xs.map (fun x => max (-1) (min 1 x))) = floatToPCM16 xs := by
  simp only [floatToPCM16, List.map_map]
  congr 1
  exact List.map_congr_left (fun x _ => by
    simp only [Function.comp_apply, sampleToInt16_clamp])

/-- The byte pair of sample i sits at offsets 2i and 2i+1 of the PCM16
serialization. -/
theorem floatToPCM16_pair : ∀ (xs : List ℚ) (i : Nat), i < xs.length →
    (floatToPCM16 xs).getD (2 * i) 0 = (sampleToInt16 (xs.getD i 0) % 65536).toNat % 256 ∧
    (floatToPCM16 xs).getD (2 * i + 1) 0 = (sampleToInt16 (xs.getD i 0) % 65536).toNat / 256
  | [], i, hi => by simp at hi
  | x :: xs, 0, _ => ⟨rfl, rfl⟩
  | x :: xs, i + 1, hi => by
    have ih := floatToPCM16_pair xs i (by simpa using hi)
    have hcons : floatToPCM16 (x :: xs)
        = (sampleToInt16 x % 65536).toNat % 256 ::
          (sampleToInt16 x % 65536).toNat / 256 :: floatToPCM16 xs := rfl
    have h2 : 2 * (i + 1) = 2 * i + 1 + 1 := by omega
    rw [hcons, h2]
    simp only [List.getD_cons_succ, List.getD_cons_zero]
    exact ih

/-- Indexing a map over an initial segment. -/
theorem getD_map_range {β : Type} (f : Nat → β) {n k : Nat} (hk : k < n) (d : β) :
    ((List.range n).map f).getD k d = f k := by
  rw [List.getD_eq_getElem?_getD, List.getElem?_map, List.getElem?_range hk]
  rfl

/-- One onMessage step on a transport-encoded even nonempty byte payload:
the unit is scheduled at max(currentTime, cursor) with duration
byteLength/2/24000 and the cursor advances past it. -/
theorem onMessage_ok_btoa (now : ℚ) (st : SchedState) (bs : List Nat)
    (hb : ∀ b ∈ bs, b < 256) (h2 : bs.length % 2 = 0) (hnz : bs.length / 2 ≠ 0) :
    onMessage now st (some (btoa bs)) =
      (⟨max now st.nextStartTime + ((bs.length / 2 : Nat) : ℚ) / 24000⟩,
       some ⟨max now st.nextStartTime, ((bs.length / 2 : Nat) : ℚ) / 24000⟩) := by
  have hdec : decode (btoa bs) = bs := atob_btoa bs hb
  simp only [onMessage, decode] at *
  rw [hdec, decodeAudioData_mono bs 24000 h2 hnz]
  simp [AudioBufferModel.duration]


/-- Claim C5: transport text encoding round-trip. For every byte sequence,
decoding the btoa transport text with decode (atob) recovers the bytes
exactly. -/
theorem claim5_transport_roundtrip (bs : List Nat) (hb : ∀ b ∈ bs, b < 256) :
    decode (btoa bs) = bs :=
  atob_btoa bs hb

/-- Witness for claim C5 at a concrete byte sequence. -/
theorem claim5_transport_roundtrip_witness :
    (∀ b ∈ [0, 1, 127, 128, 255], b < 256) ∧
    decode (btoa [0, 1, 127, 128, 255]) = [0, 1, 127, 128, 255] :=
  ⟨by decide, claim5_transport_roundtrip [0, 1, 127, 128, 255] (by decide)⟩

/-- Claim C6 (amended): decodeAudioData fails exactly when the byte length
is odd, the channel count is zero, or the truncated frame count
byteLength/2/channelCount is zero -- not when the byte length merely
fails to be a multiple of 2 x channelCount; on success it yields
channelCount channels of byteLength/2/channelCount samples, each the
corresponding interleaved int16 value divided by 32768. -/
theorem claim6_decode_validation_amended (data : List Nat) (sr nc : Nat) :
    ((∃ buf, decodeAudioData data sr nc = .ok buf) ↔
      data.length % 2 = 0 ∧ ¬(nc = 0 ∨ data.length / 2 / nc = 0)) ∧
    (∀ buf, decodeAudioData data sr nc = .ok buf →
      buf.channelData.length = nc ∧
      ∀ ch, ch < nc →
        (buf.channelData.getD ch []).length = data.length / 2 / nc ∧
        ∀ i, i < data.length / 2 / nc →
          (buf.channelData.getD ch []).getD i 0
            = (((bytesToInt16s data).getD (i * nc + ch) 0 : Int) : ℚ) / 32768) := by
  refine ⟨decodeAudioData_ok_iff data sr nc, ?_⟩
  intro buf h
  simp only [decodeAudioData, bytesToInt16s_length] at h
  by_cases hodd : data.length % 2 ≠ 0
  · rw [if_pos hodd] at h
    exact absurd h (by simp)
  · rw [if_neg hodd] at h
    by_cases hc : nc = 0 ∨ data.length / 2 / nc = 0
    · rw [if_pos hc] at h
      exact absurd h (by simp)
    · rw [if_neg hc] at h
      injection h with h
      subst h
      constructor
      · simp
      · intro ch hch
        constructor
        · rw [getD_map_range _ hch]
          simp
        · intro i hi
          rw [getD_map_range _ hch, getD_map_range _ hi]

/-- Counterexample to claim C6 as stated: 6 bytes with 2 channels is not a
whole multiple of 2 x channelCount, yet decodeAudioData succeeds (the
fractional JS frameCount 1.5 is truncated by createBuffer, trailing
bytes are dropped, and nothing throws). -/
theorem claim6_decode_validation_counterexample :
    ([0, 0, 0, 0, 0, 0] : List Nat).length % (2 * 2) ≠ 0 ∧
    ∃ buf, decodeAudioData [0, 0, 0, 0, 0, 0] 24000 2 = .ok buf :=
  ⟨by decide, (decodeAudioData_ok_iff [0, 0, 0, 0, 0, 0] 24000 2).mpr (by decide)⟩

/-- Witness for claim C6 (amended) at a concrete success input. -/
theorem claim6_decode_validation_witness :
    (([0, 0] : List Nat).length % 2 = 0 ∧
      ¬((1 : Nat) = 0 ∨ ([0, 0] : List Nat).length / 2 / 1 = 0)) ∧
    (∃ buf, decodeAudioData [0, 0] 8000 1 = .ok buf) :=
  ⟨by decide, (claim6_decode_validation_amended [0, 0] 8000 1).1.mpr (by decide)⟩

/-- Claim C7: a decode failure on one inbound payload leaves nextStartTime
unchanged, schedules nothing, does not escape the handler, and later
events run exactly as if the malformed message had never arrived. -/
theorem claim7_decode_isolation (now : ℚ) (st : SchedState) (b64 : List Nat) (e : DecodeErr)
    (herr : decodeAudioData (decode b64) 24000 1 = .error e)
    (rest : List (ℚ × Option (List Nat))) :
    onMessage now st (some b64) = (st, none) ∧
    runFrom st ((now, some b64) :: rest) = runFrom st rest := by
  have h1 : onMessage now st (some b64) = (st, none) := by
    simp [onMessage, herr]
  exact ⟨h1, runFrom_cons_none h1 rest⟩

/-- Witness for claim C7: a 1-byte payload (odd length) is dropped and a
later valid message is unaffected. -/
theorem claim7_decode_isolation_witness :
    decodeAudioData (decode (btoa [0])) 24000 1 = .error .rangeErr ∧
    (onMessage 7 ⟨5⟩ (some (btoa [0])) = (⟨5⟩, none) ∧
     runFrom ⟨5⟩ ((7, some (btoa [0])) :: [((8 : ℚ), some (btoa [0, 0]))])
       = runFrom ⟨5⟩ [((8 : ℚ), some (btoa [0, 0]))]) := by
  have hd : decode (btoa [0]) = [0] := atob_btoa [0] (by decide)
  have herr : decodeAudioData (decode (btoa [0])) 24000 1 = .error .rangeErr := by
    rw [hd]
    simp [decodeAudioData]
  exact ⟨herr, claim7_decode_isolation 7 ⟨5⟩ (btoa [0]) .rangeErr herr _⟩

/-- Claim C8: the source's teardown is NOT idempotent. The first
disconnect releases the node references (null-checked, at most once)
and closes both contexts, but a second disconnect rejects with
InvalidStateError when it awaits close() on the already-closed input
AudioContext. -/
theorem claim8_teardown_second_call_errors :
    disconnect { processor := true, inputSource := true,
                 inputContextClosed := false, outputContextClosed := false }
      = .ok { processor := false, inputSource := false,
              inputContextClosed := true, outputContextClosed := true } ∧
    disconnect { processor := false, inputSource := false,
                 inputContextClosed := true, outputContextClosed := true }
      = .error .invalidState :=
  ⟨rfl, rfl⟩

/-- Claim C9: each captured frame produces exactly one outbound send, in
frame order, whose payload is the transport text of the frame's PCM16
serialization tagged with the 16 kHz capture rate, and whose payload
decodes back to exactly that serialization. -/
theorem claim9_capture_to_transport (frames : List (List ℚ)) :
    (captureSends frames).length = frames.length ∧
    ∀ i, i < frames.length →
      (captureSends frames).getD i ⟨"", []⟩
        = ⟨"audio/pcm;rate=16000", btoa (floatToPCM16 (frames.getD i []))⟩ ∧
      decode (((captureSends frames).getD i ⟨"", []⟩).data)
        = floatToPCM16 (frames.getD i []) := by
  refine ⟨List.length_map _ _, ?_⟩
  intro i hi
  have hgd : (captureSends frames).getD i ⟨"", []⟩ = onAudioProcess (frames.getD i []) := by
    unfold captureSends
    rw [List.getD_eq_getElem?_getD, List.getElem?_map, List.getElem?_eq_getElem hi,
        List.getD_eq_getElem frames [] hi]
    rfl
  refine ⟨?_, ?_⟩
  · rw [hgd]
    rfl
  · rw [hgd]
    exact atob_btoa _ (floatToPCM16_lt256 _)

/-- Witness for claim C9 at a concrete one-frame capture. -/
theorem claim9_capture_to_transport_witness :
    0 < ([[(1 : ℚ)/2]]).length ∧
    ((captureSends [[(1 : ℚ)/2]]).getD 0 ⟨"", []⟩
        = ⟨"audio/pcm;rate=16000", btoa (floatToPCM16 (([[(1 : ℚ)/2]]).getD 0 []))⟩ ∧
      decode (((captureSends [[(1 : ℚ)/2]]).getD 0 ⟨"", []⟩).data)
        = floatToPCM16 (([[(1 : ℚ)/2]]).getD 0 [])) :=
  ⟨by decide, (claim9_capture_to_transport [[(1 : ℚ)/2]]).2 0 (by decide)⟩

/-- Claim C10: an inbound message with no inline audio payload leaves the
scheduler state unchanged and schedules no playback unit. -/
theorem claim10_no_audio_noop (now : ℚ) (st : SchedState) :
    onMessage now st none = (st, none) := rfl


/-- Claim C1: playback scheduler non-overlap. For any event sequence fed
to the session in arrival order under a monotone output clock, any unit
scheduled earlier ends (start + duration) no later than any later unit
starts; and the nextStartTime cursor never decreases across onMessage
calls. -/
theorem claim1_scheduler_nonoverlap (events : List (ℚ × Option (List Nat)))
    (hmono : List.Chain' (· ≤ ·) (events.map Prod.fst))
    (i j : Nat) (hij : i < j) (hj : j < (runSession events).2.length) :
    (((runSession events).2.getD i ⟨0, 0⟩).start
        + ((runSession events).2.getD i ⟨0, 0⟩).duration
      ≤ ((runSession events).2.getD j ⟨0, 0⟩).start) ∧
    ∀ (now : ℚ) (st : SchedState) (msg : Option (List Nat)),
      st.nextStartTime ≤ (onMessage now st msg).1.nextStartTime := by
  obtain ⟨-, h2, h3⟩ := runFrom_inv events ⟨0⟩
  exact ⟨chain_pairwise h3 (fun u hu => (h2 u hu).2.1) i j hij hj, onMessage_cursor_mono⟩

/-- Witness for claim C1: two valid units arriving at clock time 0. -/
theorem claim1_scheduler_nonoverlap_witness :
    (List.Chain' (· ≤ ·)
        (([((0 : ℚ), some (btoa [0, 0])), ((0 : ℚ), some (btoa [0, 0]))]).map Prod.fst) ∧
      (0 : Nat) < 1 ∧
      1 < (runSession [((0 : ℚ), some (btoa [0, 0])), ((0 : ℚ), some (btoa [0, 0]))]).2.length) ∧
    ((((runSession [((0 : ℚ), some (btoa [0, 0])),
                    ((0 : ℚ), some (btoa [0, 0]))]).2.getD 0 ⟨0, 0⟩).start
        + ((runSession [((0 : ℚ), some (btoa [0, 0])),
                    ((0 : ℚ), some (btoa [0, 0]))]).2.getD 0 ⟨0, 0⟩).duration
      ≤ ((runSession [((0 : ℚ), some (btoa [0, 0])),
                    ((0 : ℚ), some (btoa [0, 0]))]).2.getD 1 ⟨0, 0⟩).start) ∧
    ∀ (now : ℚ) (st : SchedState) (msg : Option (List Nat)),
      st.nextStartTime ≤ (onMessage now st msg).1.nextStartTime) := by
  have hb : ∀ b ∈ ([0, 0] : List Nat), b < 256 := by decide
  have hstep1 : onMessage 0 ⟨0⟩ (some (btoa [0, 0])) = (⟨1/24000⟩, some ⟨0, 1/24000⟩) := by
    rw [onMessage_ok_btoa 0 ⟨0⟩ [0, 0] hb (by decide) (by decide)]
    norm_num
  have hmax : max (0 : ℚ) (1/24000) = 1/24000 := max_eq_right (by norm_num)
  have hstep2 : onMessage 0 ⟨1/24000⟩ (some (btoa [0, 0]))
      = (⟨1/24000 + 1/24000⟩, some ⟨1/24000, 1/24000⟩) := by
    rw [onMessage_ok_btoa 0 ⟨1/24000⟩ [0, 0] hb (by decide) (by decide)]
    norm_num [hmax]
  have hlen : (runSession [((0 : ℚ), some (btoa [0, 0])),
      ((0 : ℚ), some (btoa [0, 0]))]).2.length = 2 := by
    unfold runSession
    rw [runFrom_cons_some hstep1, runFrom_cons_some hstep2]
    rfl
  have hmono : List.Chain' (· ≤ ·)
      (([((0 : ℚ), some (btoa [0, 0])), ((0 : ℚ), some (btoa [0, 0]))]).map Prod.fst) := by
    simp [List.chain'_cons]
  exact ⟨⟨hmono, by decide, by rw [hlen]; decide⟩,
    claim1_scheduler_nonoverlap _ hmono 0 1 (by decide) (by rw [hlen]; decide)⟩

/-- Claim C2: scheduler catch-up. On each decodable unit the scheduled
start is max(current clock, nextStartTime); and the end-to-end scenario
of three units of 0.5s, 0.3s, 0.2s arriving at clock times 0, 2, 2 is
scheduled at starts 0.0, 2.0, 2.3. -/
theorem claim2_scheduler_catchup :
    (∀ (now : ℚ) (st : SchedState) (b64 : List Nat) (buf : AudioBufferModel),
      decodeAudioData (decode b64) 24000 1 = .ok buf →
      (onMessage now st (some b64)).2 = some ⟨max now st.nextStartTime, buf.duration⟩) ∧
    (runSession [((0 : ℚ), some (btoa (List.replicate 24000 0))),
                 ((2 : ℚ), some (btoa (List.replicate 14400 0))),
                 ((2 : ℚ), some (btoa (List.replicate 9600 0)))]).2.map ScheduledUnit.start
      = [0, 2, 23/10] := by
  constructor
  · intro now st b64 buf h
    simp [onMessage, h]
  · have hb : ∀ n : Nat, ∀ b ∈ List.replicate n (0 : Nat), b < 256 := by
      intro n b hbm
      rw [List.eq_of_mem_replicate hbm]
      norm_num
    have hstep1 : onMessage 0 ⟨0⟩ (some (btoa (List.replicate 24000 0)))
        = (⟨1/2⟩, some ⟨0, 1/2⟩) := by
      rw [onMessage_ok_btoa 0 ⟨0⟩ _ (hb 24000) (by rw [List.length_replicate]) (by rw [List.length_replicate]; decide)]
      norm_num
    have hmax2 : max (2 : ℚ) (1/2) = 2 := max_eq_left (by norm_num)
    have hstep2 : onMessage 2 ⟨1/2⟩ (some (btoa (List.replicate 14400 0)))
        = (⟨2 + 3/10⟩, some ⟨2, 3/10⟩) := by
      rw [onMessage_ok_btoa 2 ⟨1/2⟩ _ (hb 14400) (by rw [List.length_replicate]) (by rw [List.length_replicate]; decide)]
      norm_num [hmax2]
    have hmax3 : max (2 : ℚ) (23/10) = 23/10 := max_eq_right (by norm_num)
    have hstep3 : onMessage 2 ⟨2 + 3/10⟩ (some (btoa (List.replicate 9600 0)))
        = (⟨23/10 + 1/5⟩, some ⟨23/10, 1/5⟩) := by
      rw [onMessage_ok_btoa 2 ⟨2 + 3/10⟩ _ (hb 9600) (by rw [List.length_replicate]) (by rw [List.length_replicate]; decide)]
      norm_num [hmax3]
    show (runFrom ⟨0⟩ _).2.map ScheduledUnit.start = _
    rw [runFrom_cons_some hstep1, runFrom_cons_some hstep2, runFrom_cons_some hstep3]
    simp [runFrom]

/-- Witness for claim C2's catch-up equation at a concrete late unit. -/
theorem claim2_scheduler_catchup_witness :
    decodeAudioData (decode (btoa [0, 0])) 24000 1 = .ok
      { numChannels := 1, frameCount := 1, sampleRate := 24000,
        channelData := [(bytesToInt16s [0, 0]).map (fun v => ((v : Int) : ℚ) / 32768)] } ∧
    (onMessage 5 ⟨3⟩ (some (btoa [0, 0]))).2
      = some ⟨max 5 (SchedState.mk 3).nextStartTime,
          AudioBufferModel.duration
            { numChannels := 1, frameCount := 1, sampleRate := 24000,
              channelData := [(bytesToInt16s [0, 0]).map (fun v => ((v : Int) : ℚ) / 32768)] }⟩ := by
  have hdec : decode (btoa [0, 0]) = [0, 0] := atob_btoa [0, 0] (by decide)
  have h : decodeAudioData (decode (btoa [0, 0])) 24000 1 = .ok
      { numChannels := 1, frameCount := 1, sampleRate := 24000,
        channelData := [(bytesToInt16s [0, 0]).map (fun v => ((v : Int) : ℚ) / 32768)] } := by
    rw [hdec]
    exact decodeAudioData_mono [0, 0] 24000 (by decide) (by decide)
  exact ⟨h, claim2_scheduler_catchup.1 5 ⟨3⟩ (btoa [0, 0]) _ h⟩

/-- Claim C3: the PCM16 encoder is total on every sample list: two bytes
per sample in order (little-endian pair of the stored int16), the
stored int16 is the truncation of the clamped, asymmetrically scaled
sample, always within the signed 16-bit range, and out-of-range inputs
are clamped rather than rejected. -/
theorem claim3_floatToPCM16_total (xs : List ℚ) :
    (floatToPCM16 xs).length = 2 * xs.length ∧
    floatToPCM16 (xs.map (fun x => max (-1) (min 1 x))) = floatToPCM16 xs ∧
    ∀ i, i < xs.length →
      [(floatToPCM16 xs).getD (2 * i) 0, (floatToPCM16 xs).getD (2 * i + 1) 0]
          = int16ToBytesLE (sampleToInt16 (xs.getD i 0)) ∧
      sampleToInt16 (xs.getD i 0)
        = ratTrunc (if max (-1) (min 1 (xs.getD i 0)) < 0
            then max (-1) (min 1 (xs.getD i 0)) * 32768
            else max (-1) (min 1 (xs.getD i 0)) * 32767) ∧
      -32768 ≤ sampleToInt16 (xs.getD i 0) ∧ sampleToInt16 (xs.getD i 0) ≤ 32767 := by
  refine ⟨floatToPCM16_length xs, floatToPCM16_clamp xs, ?_⟩
  intro i hi
  obtain ⟨hp1, hp2⟩ := floatToPCM16_pair xs i hi
  refine ⟨?_, sampleToInt16_eq_ratTrunc _, (sampleToInt16_range _).1, (sampleToInt16_range _).2⟩
  rw [hp1, hp2]
  rfl

/-- Witness for claim C3 at the out-of-range sample 2. -/
theorem claim3_floatToPCM16_total_witness :
    0 < ([(2 : ℚ)]).length ∧
    ([(floatToPCM16 [(2 : ℚ)]).getD (2 * 0) 0, (floatToPCM16 [(2 : ℚ)]).getD (2 * 0 + 1) 0]
        = int16ToBytesLE (sampleToInt16 (([(2 : ℚ)]).getD 0 0)) ∧
      sampleToInt16 (([(2 : ℚ)]).getD 0 0)
        = ratTrunc (if max (-1) (min 1 (([(2 : ℚ)]).getD 0 0)) < 0
            then max (-1) (min 1 (([(2 : ℚ)]).getD 0 0)) * 32768
            else max (-1) (min 1 (([(2 : ℚ)]).getD 0 0)) * 32767) ∧
      -32768 ≤ sampleToInt16 (([(2 : ℚ)]).getD 0 0) ∧
      sampleToInt16 (([(2 : ℚ)]).getD 0 0) ≤ 32767) :=
  ⟨by decide, (claim3_floatToPCM16_total [(2 : ℚ)]).2.2 0 (by decide)⟩

/-- Claim C4 (amended): the PCM16 round trip through decodeAudioData is
within 2/32768 = 1/16384 per sample, not 1/32768 -- encoding scales
non-negative samples by 32767 while decoding divides by 32768. -/
theorem claim4_pcm_roundtrip_amended (s : List ℚ) (hs : ∀ x ∈ s, -1 ≤ x ∧ x ≤ 1) :
    (s ≠ [] → decodeAudioData (floatToPCM16 s) 24000 1 = .ok
      { numChannels := 1, frameCount := s.length, sampleRate := 24000,
        channelData := [s.map (fun x => ((sampleToInt16 x : Int) : ℚ) / 32768)] }) ∧
    ∀ i, i < s.length →
      |(s.map (fun x => ((sampleToInt16 x : Int) : ℚ) / 32768)).getD i 0 - s.getD i 0|
        ≤ 1 / 16384 := by
  constructor
  · intro hne
    have hlen2 : (floatToPCM16 s).length % 2 = 0 := by
      rw [floatToPCM16_length]
      omega
    have hlnz : (floatToPCM16 s).length / 2 ≠ 0 := by
      rw [floatToPCM16_length]
      have hne2 : s.length ≠ 0 := fun h => hne (List.length_eq_zero.mp h)
      omega
    rw [decodeAudioData_mono _ 24000 hlen2 hlnz, bytesToInt16s_floatToPCM16,
        floatToPCM16_length, List.map_map]
    have hfc : 2 * s.length / 2 = s.length := by omega
    rw [hfc]
    rfl
  · intro i hi
    have hget : (s.map (fun x => ((sampleToInt16 x : Int) : ℚ) / 32768)).getD i 0
        = ((sampleToInt16 (s.getD i 0) : Int) : ℚ) / 32768 := by
      rw [List.getD_eq_getElem _ _ (by simpa using hi), List.getElem_map,
          List.getD_eq_getElem s 0 hi]
    rw [hget]
    have hmem : s.getD i 0 ∈ s := by
      rw [List.getD_eq_getElem s 0 hi]
      exact List.getElem_mem hi
    obtain ⟨h1, h2⟩ := hs _ hmem
    exact roundtrip_sample_bound _ h1 h2

/-- Witness for claim C4 (amended) at the in-range sample 1/2. -/
theorem claim4_pcm_roundtrip_witness :
    (∀ x ∈ [(1 : ℚ)/2], -1 ≤ x ∧ x ≤ 1) ∧
    (0 < ([(1 : ℚ)/2]).length ∧
      |(([(1 : ℚ)/2]).map (fun x => ((sampleToInt16 x : Int) : ℚ) / 32768)).getD 0 0
          - ([(1 : ℚ)/2]).getD 0 0| ≤ 1 / 16384) := by
  have hs : ∀ x ∈ [(1 : ℚ)/2], -1 ≤ x ∧ x ≤ 1 := by
    intro x hx
    simp only [List.mem_singleton] at hx
    subst hx
    norm_num
  exact ⟨hs, by decide, (claim4_pcm_roundtrip_amended [(1 : ℚ)/2] hs).2 0 (by decide)⟩

/-- Counterexample to claim C4 as stated: for the in-range sample
65535/65536 the encoder stores 32766 and the decoder returns
32766/32768, an error of 3/65536, which exceeds 1/32768 = 2/65536. -/
theorem claim4_pcm_roundtrip_counterexample :
    (∀ x ∈ [(65535 : ℚ)/65536], -1 ≤ x ∧ x ≤ 1) ∧
    ¬ (∀ i, i < ([(65535 : ℚ)/65536]).length →
        |(([(65535 : ℚ)/65536]).map (fun x => ((sampleToInt16 x : Int) : ℚ) / 32768)).getD i 0
            - ([(65535 : ℚ)/65536]).getD i 0| ≤ 1 / 32768) := by
  have hs : ∀ x ∈ [(65535 : ℚ)/65536], -1 ≤ x ∧ x ≤ 1 := by
    intro x hx
    simp only [List.mem_singleton] at hx
    subst hx
    norm_num
  have hv : sampleToInt16 ((65535 : ℚ)/65536) = 32766 := by
    rw [sampleToInt16_eq_ratTrunc]
    have hc1 : min 1 ((65535 : ℚ)/65536) = (65535 : ℚ)/65536 := min_eq_right (by norm_num)
    have hc2 : max (-1) ((65535 : ℚ)/65536) = (65535 : ℚ)/65536 := max_eq_right (by norm_num)
    rw [hc1, hc2, if_neg (by norm_num)]
    simp only [ratTrunc]
    rw [if_neg (by norm_num), Int.floor_eq_iff]
    norm_num
  refine ⟨hs, ?_⟩
  intro hall
  have h0 := hall 0 (by decide)
  simp only [List.map_cons, List.map_nil, List.getD_cons_zero] at h0
  rw [hv, abs_le] at h0
  obtain ⟨hlow, -⟩ := h0
  norm_num at hlow

end AskAboutVideo
